import Mathlib

/-!
Verification development for the RecruitFlow-AI candidate outreach workflow.

The embedding models the candidate status workflow, the sequential bulk
dispatcher, message templating, phone normalization, the AI-fallback logic
and the persistence adapter.  JavaScript strings are modelled as `List Char`;
the browser `window.open` call and the URI encoder are modelled as an
explicit environment of oracle functions.
-/

/-- JavaScript strings are modelled as lists of characters. -/
abbrev Str := List Char

/-- Candidate status enum from `types.ts`:
`'pending' | 'sent' | 'skipped' | 'sending' | 'failed'`. -/
inductive Status where
  | pending
  | sending
  | sent
  | skipped
  | failed
deriving DecidableEq, Repr

/-- The `Candidate` interface from `types.ts`. -/
structure Candidate where
  id : String
  name : Str
  phone : Str
  originalRow : List (Str × Str)
  status : Status
deriving DecidableEq, Repr

/-- `formatPhone` from `ProcessingQueue`: `phone.replace(/\D/g, '')` keeps
exactly the decimal digits. -/
def formatPhone (phone : Str) : Str := phone.filter Char.isDigit

/-- JavaScript `String.prototype.split(sep)` for a single-character
separator, on the character-list model.  `''.split(' ') = ['']` and
separators at the ends produce empty fields, as in JS. -/
def jsSplit (sep : Char) : Str → List Str
  | [] => [[]]
  | c :: rest =>
    let r := jsSplit sep rest
    if c = sep then [] :: r else (c :: r.headD []) :: r.tail

/-- `namePart` from `openWhatsApp`:
`(candidate.name || 'Candidate').split(' ')[0]`. -/
def namePart (name : Str) : Str :=
  (jsSplit ' ' (if name = [] then "Candidate".toList else name)).headD []

/-- ECMAScript `GetSubstitution` for a string replacement with no capture
groups: expand `$$` to `$`, `$&` to the matched text, `$` + backquote
(`\x60`) to the part of the subject before the match, `$` + apostrophe
(`\x27`) to the part after the match; any other `$` (including `$` before a
digit, as the pattern has no capture groups, and a trailing `$`) is
literal. -/
def getSubstitution (matched before after : Str) : Str → Str
  | [] => []
  | '$' :: '$' :: rest => '$' :: getSubstitution matched before after rest
  | '$' :: '&' :: rest => matched ++ getSubstitution matched before after rest
  | '$' :: '\x60' :: rest => before ++ getSubstitution matched before after rest
  | '$' :: '\x27' :: rest => after ++ getSubstitution matched before after rest
  | c :: rest => c :: getSubstitution matched before after rest

/-- Fuel-indexed scanner for `replaceAll`; the fuel is an upper bound on the
scanned text's length, so the zero-fuel branch is never reached from
`replaceAll`.  `before` is the part of the original subject already
scanned, kept for the positional `GetSubstitution` escapes. -/
def replaceAllAux (pat repl : Str) : Nat → Str → Str → Str
  | _, _, [] => []
  | 0, _, l => l
  | Nat.succ fuel, before, c :: rest =>
    if pat.isPrefixOf (c :: rest) ∧ pat ≠ [] then
      getSubstitution pat before (rest.drop (pat.length - 1)) repl ++
        replaceAllAux pat repl fuel (before ++ pat)
          (rest.drop (pat.length - 1))
    else
      c :: replaceAllAux pat repl fuel (before ++ [c]) rest

/-- JavaScript global string replacement `s.replace(/pat/g, repl)` for a
literal nonempty pattern and a string replacement: leftmost,
non-overlapping, the replacement is expanded by `GetSubstitution` (so
`$$`, `$&`, `$`-backquote and `$`-apostrophe in `repl` are special) and is
not rescanned. -/
def replaceAll (pat repl : Str) (l : Str) : Str :=
  replaceAllAux pat repl l.length [] l

/-- The claim's replacement rule, stated from the spec's words: every
occurrence of the token is replaced by the given text taken literally
(fuel-indexed scanner, fuel as in `replaceAllAux`). -/
def specLiteralReplaceAux (pat repl : Str) : Nat → Str → Str
  | _, [] => []
  | 0, l => l
  | Nat.succ fuel, c :: rest =>
    if pat.isPrefixOf (c :: rest) ∧ pat ≠ [] then
      repl ++ specLiteralReplaceAux pat repl fuel (rest.drop (pat.length - 1))
    else
      c :: specLiteralReplaceAux pat repl fuel rest

/-- The claim's literal global replacement, stated from the spec's words:
leftmost, non-overlapping, the replacement text inserted verbatim. -/
def specLiteralReplace (pat repl : Str) (l : Str) : Str :=
  specLiteralReplaceAux pat repl l.length l

/-- The personalization token `{{name}}` appearing in `openWhatsApp`. -/
def nameToken : Str := "\x7b\x7bname\x7d\x7d".toList

/-- `personalizedMessage` from `openWhatsApp`:
`finalMessage.replace(/{{name}}/g, namePart)`. -/
def personalizedMessage (finalMessage name : Str) : Str :=
  replaceAll nameToken (namePart name) finalMessage

/-- External browser/encoder environment: `enc` models
`encodeURIComponent`, `winOpen` models whether `window.open(url)` returned
a non-null handle. -/
structure Env where
  enc : Str → Str
  winOpen : Str → Bool

/-- `openWhatsApp` from `ProcessingQueue`.  Returns the URL passed to
`window.open` (or `none` when construction failed and no browsing context
was requested) together with the boolean result `win !== null`. -/
def openWhatsApp (env : Env) (finalMessage : Str) (c : Candidate) :
    Option Str × Bool :=
  let cleanPhone := formatPhone c.phone
  if cleanPhone = [] then (none, false)
  else
    let msg := personalizedMessage finalMessage c.name
    let url := "https://api.whatsapp.com/send?phone=".toList ++ cleanPhone ++
      "&text=".toList ++ env.enc msg
    (some url, env.winOpen url)

/-- The `MessageTemplate` interface from `types.ts`. -/
structure MessageTemplate where
  intro : Str
  questions : List Str
  outro : Str
deriving DecidableEq, Repr

/-- The ECMAScript WhiteSpace and LineTerminator code points removed by
`String.prototype.trim`: TAB, LF, VT, FF, CR, SPACE, NBSP, OGHAM SPACE
MARK, the U+2000–U+200A spaces, LINE and PARAGRAPH SEPARATOR, NARROW
NO-BREAK SPACE, MEDIUM MATHEMATICAL SPACE, IDEOGRAPHIC SPACE and ZWNBSP
(BOM). -/
def jsWhitespace (ch : Char) : Bool :=
  ch.toNat = 0x9 ∨ ch.toNat = 0xA ∨ ch.toNat = 0xB ∨ ch.toNat = 0xC ∨
    ch.toNat = 0xD ∨ ch.toNat = 0x20 ∨ ch.toNat = 0xA0 ∨
    ch.toNat = 0x1680 ∨ (0x2000 ≤ ch.toNat ∧ ch.toNat ≤ 0x200A) ∨
    ch.toNat = 0x2028 ∨ ch.toNat = 0x2029 ∨ ch.toNat = 0x202F ∨
    ch.toNat = 0x205F ∨ ch.toNat = 0x3000 ∨ ch.toNat = 0xFEFF

/-- JavaScript `String.prototype.trim` on the character-list model. -/
def trimChars (l : Str) : Str :=
  (l.dropWhile jsWhitespace).rdropWhile jsWhitespace

/-- `fullMessage` from `App.tsx`: the template literal
`` `\n${intro}\n\n${questions.join('\n')}\n\n${outro}\n`.trim() ``. -/
def fullMessage (t : MessageTemplate) : Str :=
  trimChars ("\n".toList ++ t.intro ++ "\n\n".toList ++
    List.intercalate "\n".toList t.questions ++
    "\n\n".toList ++ t.outro ++ "\n".toList)

/-- A trace of `onUpdateStatus(id, status)` calls, in emission order. -/
abbrev Trace := List (String × Status)

/-- `handleUpdateStatus` from `App.tsx` (local-state part):
`prev.map(c => c.id === id ? { ...c, status } : c)`. -/
def updateStatus (roster : List Candidate) (id : String) (st : Status) :
    List Candidate :=
  roster.map (fun c => if c.id = id then { c with status := st } else c)

/-- Applying a sequence of status-update calls to the roster, in order. -/
def applyTrace (roster : List Candidate) (t : Trace) : List Candidate :=
  t.foldl (fun acc e => updateStatus acc e.1 e.2) roster

/-- Resolution of one send attempt: `'sent'` when `openWhatsApp` reported
success, `'failed'` otherwise. -/
def sendResolved (env : Env) (finalMessage : Str) (c : Candidate) : Status :=
  if (openWhatsApp env finalMessage c).2 then Status.sent else Status.failed

/-- `executeSend` from `ProcessingQueue`: sets the candidate to `sending`,
waits the UI delay, attempts `openWhatsApp`, then resolves to `sent` or
`failed` (alerting on failure).  The observable effect is the emitted
status-update trace and the resulting roster. -/
def executeSend (env : Env) (finalMessage : Str) (roster : List Candidate)
    (c : Candidate) : List Candidate × Trace :=
  let t : Trace := [(c.id, Status.sending), (c.id, sendResolved env finalMessage c)]
  (applyTrace roster t, t)

/-- `handleSingleSendClick`: stores the candidate as `candidateToConfirm`. -/
def handleSingleSendClick (c : Candidate) : Option Candidate := some c

/-- `handleRetry` from `ProcessingQueue`: it also merely stores the candidate
as `candidateToConfirm`, so a confirmed retry re-fires `executeSend`. -/
def handleRetry (c : Candidate) : Option Candidate := some c

/-- `confirmSingleSend`: runs `executeSend` on the stored
`candidateToConfirm`, if any. -/
def confirmSingleSend (env : Env) (finalMessage : Str)
    (roster : List Candidate) : Option Candidate → List Candidate × Trace
  | none => (roster, [])
  | some c => executeSend env finalMessage roster c

/-- The per-candidate skip button (rendered only for `pending` candidates):
`onUpdateStatus(candidate.id, 'skipped')`. -/
def singleSkip (roster : List Candidate) (c : Candidate) :
    List Candidate × Trace :=
  (updateStatus roster c.id Status.skipped, [(c.id, Status.skipped)])

/-- The two bulk-send sources in `ProcessingQueue`. -/
inductive BulkType where
  | all
  | selected
deriving DecidableEq, Repr

/-- The `ProcessingQueue` component state relevant to the workflow: the
roster prop, the Selection Set (`selectedIds`) and `bulkActionType`. -/
structure QState where
  roster : List Candidate
  selected : List String
  bulkActionType : Option BulkType
deriving DecidableEq, Repr

/-- `processCandidateList` from `ProcessingQueue`: clears the Selection Set
iff the batch source was `'selected'`, then processes the targets strictly
sequentially — for each one `sending`, throttle delay, `openWhatsApp`,
then `sent`/`failed`; `bulkActionType` is reset at the end. -/
def processCandidateList (env : Env) (finalMessage : Str) (s : QState)
    (targets : List Candidate) : QState × Trace :=
  let sel' := if s.bulkActionType = some BulkType.selected then [] else s.selected
  let trace : Trace := targets.flatMap (fun c =>
    [(c.id, Status.sending), (c.id, sendResolved env finalMessage c)])
  (⟨applyTrace s.roster trace, sel', none⟩, trace)

/-- `confirmBulkSend` from `ProcessingQueue`: computes the targets from the
pending filter (source `'all'`) or the Selection Set (source `'selected'`)
and hands them to `processCandidateList`. -/
def confirmBulkSend (env : Env) (finalMessage : Str) (s : QState) :
    QState × Trace :=
  let targets :=
    match s.bulkActionType with
    | some BulkType.all => s.roster.filter (fun c => c.status = Status.pending)
    | some BulkType.selected => s.roster.filter (fun c => s.selected.contains c.id)
    | none => []
  processCandidateList env finalMessage s targets

/-- `handleBulkSkip` from `ProcessingQueue`: for each roster candidate that
is selected and `pending`, emit `onUpdateStatus(id, 'skipped')`; then clear
the Selection Set. -/
def handleBulkSkip (roster : List Candidate) (selected : List String) :
    (List Candidate × List String) × Trace :=
  let trace : Trace := roster.filterMap (fun c =>
    if selected.contains c.id ∧ c.status = Status.pending then
      some (c.id, Status.skipped)
    else none)
  ((applyTrace roster trace, []), trace)

/-- `handleBulkRetry` from `ProcessingQueue`: for each selected roster
candidate, emit `onUpdateStatus(id, 'pending')`; then clear the
Selection Set. -/
def handleBulkRetry (roster : List Candidate) (selected : List String) :
    (List Candidate × List String) × Trace :=
  let trace : Trace := roster.filterMap (fun c =>
    if selected.contains c.id then some (c.id, Status.pending) else none)
  ((applyTrace roster trace, []), trace)

/-- Fresh `ProcessingQueue` component state, as initialized on mount:
empty Selection Set, no bulk action in flight. -/
def initialQState (roster : List Candidate) : QState := ⟨roster, [], none⟩

/-- An ingested spreadsheet row: an ordered column-name → cell-text map. -/
abbrev Row := List (Str × Str)

/-- JavaScript property read `row[col] || ''`: a missing key yields the
empty string (and an empty value stays empty). -/
def rowGet (row : Row) (col : Str) : Str :=
  ((row.find? (fun e => e.1 == col)).map Prod.snd).getD []

/-- The column mapping produced by `analyzeCsvHeaders`. -/
structure Mapping where
  nameColumn : Str
  phoneColumn : Str
deriving DecidableEq, Repr

/-- Candidate id construction from `handleDataLoaded`:
`` `c-${Date.now()}-${idx}` ``. -/
def mkId (ts idx : Nat) : String := "c-" ++ toString ts ++ "-" ++ toString idx

/-- `handleDataLoaded` from `App.tsx` (roster-construction part): each raw
row becomes a `pending` candidate with the mapped name (placeholder
`'Candidate'` when empty) and raw mapped phone; then
`.filter(c => c.phone.length > 5)` drops short raw phone strings. -/
def handleDataLoaded (ts : Nat) (m : Mapping) (rawData : List Row) :
    List Candidate :=
  ((List.range rawData.length).zip rawData).map (fun p =>
    { id := mkId ts p.1
      name := if rowGet p.2 m.nameColumn = [] then "Candidate".toList
              else rowGet p.2 m.nameColumn
      phone := rowGet p.2 m.phoneColumn
      originalRow := p.2
      status := Status.pending : Candidate })
  |>.filter (fun c => c.phone.length > 5)

/-- A row of the `candidates` table as returned by the backing store;
`status` is `none` when the stored text is null/empty (JS falsy). -/
structure DbRow where
  id : String
  name : Str
  phone : Str
  status : Option Status
  originalRow : Option (List (Str × Str))
deriving DecidableEq, Repr

/-- Row mapping in `getAllCandidates`:
`status: row.status || 'pending'`, `originalRow: row.original_row || {}`. -/
def mapDbRow (row : DbRow) : Candidate :=
  { id := row.id
    name := row.name
    phone := row.phone
    status := row.status.getD Status.pending
    originalRow := row.originalRow.getD [] }

/-- Backing-store error classes distinguished by `dbService`:
`PGRST205`/`42P01` (schema absent) versus anything else. -/
inductive DbErr where
  | missingTable
  | other (message : Str)
deriving DecidableEq, Repr

/-- The error indicator `getAllCandidates` reports to its caller. -/
inductive LoadErr where
  | missingTable
  | message (m : Str)
deriving DecidableEq, Repr

/-- The module-level `isOfflineMode` flag of `dbService`. -/
structure DbState where
  offline : Bool
deriving DecidableEq, Repr

/-- `getAllCandidates` from `dbService`: always queries the backing store
(the flag is not consulted); a schema-absent error sets `isOfflineMode` and
reports `'missing_table'`; other errors are reported by message; data rows
are mapped with `mapDbRow`.  `resp` is the backing store's response. -/
def getAllCandidates (resp : Except DbErr (List DbRow)) (s : DbState) :
    DbState × (List Candidate × Option LoadErr) :=
  match resp with
  | .error DbErr.missingTable =>
      (⟨true⟩, ([], some LoadErr.missingTable))
  | .error (DbErr.other m) => (s, ([], some (LoadErr.message m)))
  | .ok rows => (s, (rows.map mapDbRow, none))

/-- `addCandidates` from `dbService`: a no-op in offline mode or on an empty
list; otherwise performs the remote upsert (second component `true`), and a
schema-absent error flips the flag.  `resp` is the write outcome. -/
def addCandidates (resp : Option DbErr) (cs : List Candidate) (s : DbState) :
    DbState × Bool :=
  if s.offline ∨ cs = [] then (s, false)
  else
    match resp with
    | some DbErr.missingTable => (⟨true⟩, true)
    | _ => (s, true)

/-- `updateStatus` from `dbService` (remote part): a no-op in offline mode;
otherwise performs the remote update, and a schema-absent error flips the
flag. -/
def dbUpdateStatus (resp : Option DbErr) (s : DbState) : DbState × Bool :=
  if s.offline then (s, false)
  else
    match resp with
    | some DbErr.missingTable => (⟨true⟩, true)
    | _ => (s, true)

/-- `clearCandidates` from `dbService`: a no-op in offline mode; otherwise
performs the remote delete, and a schema-absent error flips the flag. -/
def clearCandidates (resp : Option DbErr) (s : DbState) : DbState × Bool :=
  if s.offline then (s, false)
  else
    match resp with
    | some DbErr.missingTable => (⟨true⟩, true)
    | _ => (s, true)

/-- `retryConnection` from `dbService`: resets the flag, re-runs
`getAllCandidates`, and reports success iff the error was not
`'missing_table'`. -/
def retryConnection (resp : Except DbErr (List DbRow)) (_s : DbState) :
    DbState × Bool :=
  let out := getAllCandidates resp ⟨false⟩
  (out.1, out.2.2 ≠ some LoadErr.missingTable)

/-- Lower-casing a JS string, as in `h.toLowerCase()` (ASCII letters). -/
def lowerStr (s : Str) : Str := s.map Char.toLower

/-- `a.includes(b)`: substring containment on the character-list model. -/
def hasSub (pat : Str) : Str → Bool
  | [] => pat.isEmpty
  | c :: rest => pat.isPrefixOf (c :: rest) || hasSub pat rest

/-- The predicate `h.toLowerCase().includes('name')`. -/
def nameHeader (h : Str) : Bool := hasSub "name".toList (lowerStr h)

/-- The predicate `h.toLowerCase().includes('phone'|'mobile'|'contact')`. -/
def phoneHeader (h : Str) : Bool :=
  hasSub "phone".toList (lowerStr h) || hasSub "mobile".toList (lowerStr h) ||
    hasSub "contact".toList (lowerStr h)

/-- The deterministic fallback branch of `analyzeCsvHeaders` in
`geminiService`, taken whenever the AI collaborator fails:
`headers.find(nameish) || headers[0]` and
`headers.find(phoneish) || headers[1]` (`none` models `undefined`). -/
def analyzeCsvHeadersFallback (headers : List Str) :
    Option Str × Option Str :=
  ((headers.find? nameHeader).or headers.head?,
   (headers.find? phoneHeader).or (headers.get? 1))

/-- Outcome of a generative-AI call: the text of a successful response
(possibly empty, JS falsy) or a thrown error. -/
inductive AiResult where
  | ok (text : Str)
  | err
deriving DecidableEq, Repr

/-- `refineMessageTone` from `geminiService`: returns
`response.text || currentMessage`, and the original text unchanged when the
call throws. -/
def refineMessageTone (res : AiResult) (currentMessage : Str) : Str :=
  match res with
  | .err => currentMessage
  | .ok t => if t = [] then currentMessage else t

/-- `handleRefine` from `MessageEditor`: the refined text is stored as the
new intro after stripping every double-quote character
(`newIntro.replace(/"/g, '')`). -/
def handleRefine (res : AiResult) (intro : Str) : Str :=
  (refineMessageTone res intro).filter (fun ch => ch ≠ '"')

/-- The status-transition edges a trace induces: each update is paired with
the target candidate's status at the moment of the update (updates to ids
absent from the roster induce no edge). -/
def replayEdges : List Candidate → Trace → List (Status × Status)
  | _, [] => []
  | r, e :: rest =>
    (match r.find? (fun c => c.id == e.1) with
     | some c => [(c.status, e.2)]
     | none => []) ++ replayEdges (updateStatus r e.1 e.2) rest

/-- The §4.1 transition table of the specification: `pending → skipped`,
`pending → sending`, `sending → sent`, `sending → failed`, and
`sent/failed/skipped → pending`. -/
def specEdge (a b : Status) : Bool :=
  match a, b with
  | .pending, .skipped => true
  | .pending, .sending => true
  | .sending, .sent => true
  | .sending, .failed => true
  | .sent, .pending => true
  | .failed, .pending => true
  | .skipped, .pending => true
  | _, _ => false

/-- The transition edges the code actually produces: skip moves `pending`
to `skipped`; retry/requeue moves any status to `pending`; a send attempt
moves its target — whatever its current status — to `sending`; and `sending`
resolves to `sent` or `failed` (so `sent`/`failed` are still only ever
entered from `sending`). -/
def codeEdge (a b : Status) : Bool :=
  (a = Status.pending ∧ b = Status.skipped) ∨ b = Status.pending ∨
    b = Status.sending ∨
    (a = Status.sending ∧ (b = Status.sent ∨ b = Status.failed))

/-- What one operation does to one candidate: a single status write, or a
send attempt (`sending` followed by the resolution status). -/
inductive Shot where
  | one (st : Status)
  | two (res : Status)
deriving DecidableEq, Repr

/-- The trace a shot emits for a given candidate. -/
def shotTrace (c : Candidate) : Shot → Trace
  | .one st => [(c.id, st)]
  | .two res => [(c.id, Status.sending), (c.id, res)]

/-- The edges a shot induces when the candidate's roster status is its
snapshot status. -/
def shotEdges (c : Candidate) : Shot → List (Status × Status)
  | .one st => [(c.status, st)]
  | .two res => [(c.status, Status.sending), (Status.sending, res)]

/-- The final status a shot leaves its candidate in. -/
def shotFinal : Shot → Status
  | .one st => st
  | .two res => res

/-- The last status written to `id` by a trace, starting from `s0` when the
trace never touches `id`. -/
def lastStatus (t : Trace) (id : String) (s0 : Status) : Status :=
  t.foldl (fun s e => if e.1 = id then e.2 else s) s0

/-- The claim's personalization rule, stated from the spec's words: the
candidate's name up to the first space, or the whole name when it contains
no space. -/
def specNameToken (name : Str) : Str := name.takeWhile (fun ch => ch ≠ ' ')

/-- The candidate-loading effect on mount in `App.tsx` (`loadCandidates`):
a `'missing_table'` error switches the UI status badge to offline; otherwise
a nonempty result becomes the roster.  The boolean is `true` when the badge
shows offline. -/
def loadCandidatesApp (resp : Except DbErr (List DbRow)) (s : DbState) :
    DbState × (Bool × List Candidate) :=
  let out := getAllCandidates resp s
  if out.2.2 = some LoadErr.missingTable then (out.1, (true, []))
  else if out.2.1 ≠ [] then (out.1, (false, out.2.1))
  else (out.1, (false, []))

theorem id_map_updateStatus (r : List Candidate) (i : String) (st : Status) :
    (updateStatus r i st).map Candidate.id = r.map Candidate.id := by
  unfold updateStatus
  rw [List.map_map]
  apply List.map_congr_left
  intro c _
  by_cases h : c.id = i <;> simp [h]

theorem id_map_applyTrace (t : Trace) (r : List Candidate) :
    (applyTrace r t).map Candidate.id = r.map Candidate.id := by
  induction t generalizing r with
  | nil => rfl
  | cons e t ih =>
    show (applyTrace (updateStatus r e.1 e.2) t).map Candidate.id = _
    rw [ih, id_map_updateStatus]

theorem find?_updateStatus (r : List Candidate) (i j : String) (st : Status) :
    (updateStatus r i st).find? (fun c => c.id == j) =
      (r.find? (fun c => c.id == j)).map
        (fun c => if c.id = i then { c with status := st } else c) := by
  induction r with
  | nil => rfl
  | cons c r ih =>
    have hg : (if c.id = i then { c with status := st } else c).id = c.id := by
      by_cases h : c.id = i <;> simp [h]
    have hcons : updateStatus (c :: r) i st =
        (if c.id = i then { c with status := st } else c) :: updateStatus r i st := rfl
    rw [hcons, List.find?_cons, List.find?_cons, hg]
    rcases Bool.eq_false_or_eq_true (c.id == j) with hb | hb <;> rw [hb] <;>
      first
      | rfl
      | exact ih

theorem find?_nodup_mem {r : List Candidate} {c : Candidate}
    (hnd : (r.map Candidate.id).Nodup) (hc : c ∈ r) :
    r.find? (fun x => x.id == c.id) = some c := by
  induction r with
  | nil => cases hc
  | cons a r ih =>
    simp only [List.map_cons, List.nodup_cons] at hnd
    rcases List.mem_cons.mp hc with h | h
    · subst h
      simp [List.find?_cons]
    · have hne : a.id ≠ c.id := by
        intro he
        exact hnd.1 (he ▸ List.mem_map_of_mem _ h)
      have hb : (a.id == c.id) = false := by simp [hne]
      rw [List.find?_cons, hb]
      exact ih hnd.2 h

theorem nodup_id_inj {r : List Candidate} {c c' : Candidate}
    (hnd : (r.map Candidate.id).Nodup) (hc : c ∈ r) (hc' : c' ∈ r)
    (h : c.id = c'.id) : c = c' := by
  have h1 := find?_nodup_mem hnd hc
  have h2 := find?_nodup_mem hnd hc'
  rw [h] at h1
  rw [h1] at h2
  exact (Option.some_inj.mp h2)

theorem lastStatus_cons (e : String × Status) (t : Trace) (j : String)
    (s0 : Status) :
    lastStatus (e :: t) j s0 = lastStatus t j (if e.1 = j then e.2 else s0) :=
  rfl

theorem lastStatus_not_mem {t : Trace} {j : String} (s0 : Status)
    (h : j ∉ t.map Prod.fst) : lastStatus t j s0 = s0 := by
  induction t generalizing s0 with
  | nil => rfl
  | cons e t ih =>
    have h1 : e.1 ≠ j := by
      intro he
      exact h (by simp [he])
    rw [lastStatus_cons, if_neg h1]
    exact ih s0 (fun hm => h (by simp at hm ⊢; exact Or.inr hm))

theorem find?_applyTrace (t : Trace) (r : List Candidate) (j : String) :
    (applyTrace r t).find? (fun c => c.id == j) =
      (r.find? (fun c => c.id == j)).map
        (fun c => { c with status := lastStatus t j c.status }) := by
  induction t generalizing r with
  | nil =>
    show r.find? _ = _
    cases h : r.find? (fun c => c.id == j) <;> rfl
  | cons e t ih =>
    show (applyTrace (updateStatus r e.1 e.2) t).find? _ = _
    rw [ih, find?_updateStatus]
    cases h : r.find? (fun c => c.id == j) with
    | none => rfl
    | some c =>
      have hcj : c.id = j := by simpa using List.find?_some h
      simp only [Option.map_some']
      by_cases hce : c.id = e.1
      · rw [if_pos hce]
        have : e.1 = j := hce ▸ hcj
        rw [lastStatus_cons, if_pos this]
      · rw [if_neg hce]
        have : e.1 ≠ j := fun he => hce (he ▸ hcj)
        rw [lastStatus_cons, if_neg this]

theorem mem_updateStatus_of_ne {r : List Candidate} {c : Candidate}
    {i : String} (st : Status) (hc : c ∈ r) (h : c.id ≠ i) :
    c ∈ updateStatus r i st := by
  unfold updateStatus
  exact List.mem_map.mpr ⟨c, hc, by simp [h]⟩

theorem replayEdges_cons (r : List Candidate) (e : String × Status)
    (rest : Trace) :
    replayEdges r (e :: rest) =
      (match r.find? (fun c => c.id == e.1) with
       | some c => [(c.status, e.2)]
       | none => []) ++ replayEdges (updateStatus r e.1 e.2) rest := by
  rfl

theorem replayEdges_shots (l : List (Candidate × Shot)) :
    ∀ r : List Candidate, (r.map Candidate.id).Nodup →
      (∀ p ∈ l, p.1 ∈ r) → (l.map (fun p => p.1.id)).Nodup →
      replayEdges r (l.flatMap (fun p => shotTrace p.1 p.2)) =
        l.flatMap (fun p => shotEdges p.1 p.2) := by
  induction l with
  | nil =>
    intro r _ _ _
    rfl
  | cons p l ih =>
    intro r hids hmem hnd
    obtain ⟨c₀, s₀⟩ := p
    have hcr : c₀ ∈ r := hmem (c₀, s₀) (List.mem_cons_self _ _)
    have hfind : r.find? (fun x => x.id == c₀.id) = some c₀ :=
      find?_nodup_mem hids hcr
    simp only [List.map_cons, List.nodup_cons] at hnd
    have htail : ∀ q ∈ l, q.1.id ≠ c₀.id := by
      intro q hq he
      exact hnd.1 (he ▸ List.mem_map_of_mem (fun p => p.1.id) hq)
    have hmemtail : ∀ q ∈ l, q.1 ∈ r := fun q hq =>
      hmem q (List.mem_cons_of_mem _ hq)
    cases s₀ with
    | one st =>
      rw [List.flatMap_cons, List.flatMap_cons]
      show replayEdges r ((c₀.id, st) :: l.flatMap (fun p => shotTrace p.1 p.2)) = _
      rw [replayEdges_cons, hfind]
      have hids' : ((updateStatus r c₀.id st).map Candidate.id).Nodup := by
        rw [id_map_updateStatus]; exact hids
      have hmem' : ∀ q ∈ l, q.1 ∈ updateStatus r c₀.id st := fun q hq =>
        mem_updateStatus_of_ne st (hmemtail q hq) (htail q hq)
      rw [ih _ hids' hmem' hnd.2]
      rfl
    | two res =>
      rw [List.flatMap_cons, List.flatMap_cons]
      show replayEdges r ((c₀.id, Status.sending) :: (c₀.id, res) ::
        l.flatMap (fun p => shotTrace p.1 p.2)) = _
      rw [replayEdges_cons, hfind]
      have hfind2 : (updateStatus r c₀.id Status.sending).find?
          (fun x => x.id == c₀.id) = some { c₀ with status := Status.sending } := by
        rw [find?_updateStatus, hfind]
        simp
      rw [replayEdges_cons, hfind2]
      have hids' : (((updateStatus (updateStatus r c₀.id Status.sending) c₀.id
          res)).map Candidate.id).Nodup := by
        rw [id_map_updateStatus, id_map_updateStatus]; exact hids
      have hmem' : ∀ q ∈ l,
          q.1 ∈ updateStatus (updateStatus r c₀.id Status.sending) c₀.id res :=
        fun q hq => mem_updateStatus_of_ne res
          (mem_updateStatus_of_ne Status.sending (hmemtail q hq) (htail q hq))
          (htail q hq)
      rw [ih _ hids' hmem' hnd.2]
      rfl

theorem filterMap_if {α β : Type} (p : α → Prop) [DecidablePred p]
    (f : α → β) (l : List α) :
    (l.filterMap fun a => if p a then some (f a) else none) =
      (l.filter fun a => p a).map f := by
  induction l with
  | nil => rfl
  | cons a l ih => by_cases h : p a <;> simp [h, ih]

theorem map_one_shotTrace (st : Status) (cs : List Candidate) :
    ((cs.map (fun c => (c, Shot.one st))).flatMap fun p => shotTrace p.1 p.2) =
      cs.map (fun c => (c.id, st)) := by
  induction cs with
  | nil => rfl
  | cons a l ih =>
    simp only [List.map_cons, List.flatMap_cons, ih]
    rfl

theorem map_two_shotTrace (f : Candidate → Status) (cs : List Candidate) :
    ((cs.map (fun c => (c, Shot.two (f c)))).flatMap fun p => shotTrace p.1 p.2) =
      cs.flatMap (fun c => [(c.id, Status.sending), (c.id, f c)]) := by
  induction cs with
  | nil => rfl
  | cons a l ih =>
    simp only [List.map_cons, List.flatMap_cons, ih]
    rfl

theorem handleBulkSkip_trace (roster : List Candidate)
    (selected : List String) :
    (handleBulkSkip roster selected).2 =
      (roster.filter fun c =>
          selected.contains c.id ∧ c.status = Status.pending).map
        (fun c => (c.id, Status.skipped)) :=
  filterMap_if (fun c : Candidate => selected.contains c.id ∧ c.status = Status.pending)
    (fun c : Candidate => (c.id, Status.skipped)) roster

theorem handleBulkRetry_trace (roster : List Candidate)
    (selected : List String) :
    (handleBulkRetry roster selected).2 =
      (roster.filter fun c => selected.contains c.id = true).map
        (fun c => (c.id, Status.pending)) :=
  filterMap_if (fun c : Candidate => selected.contains c.id = true)
    (fun c : Candidate => (c.id, Status.pending)) roster

theorem filter_ids_nodup (roster : List Candidate) (p : Candidate → Bool)
    (h : (roster.map Candidate.id).Nodup) :
    ((roster.filter p).map Candidate.id).Nodup :=
  h.sublist ((roster.filter_sublist).map Candidate.id)

theorem lastStatus_sendFlat_not_mem (env : Env) (finalMessage : Str)
    (targets : List Candidate) (j : String) (s0 : Status)
    (h : ∀ c ∈ targets, c.id ≠ j) :
    lastStatus (targets.flatMap fun c =>
        [(c.id, Status.sending), (c.id, sendResolved env finalMessage c)])
      j s0 = s0 := by
  induction targets generalizing s0 with
  | nil => rfl
  | cons a l ih =>
    have ha : a.id ≠ j := h a (List.mem_cons_self _ _)
    rw [List.flatMap_cons, List.cons_append, List.cons_append,
      List.nil_append, lastStatus_cons, lastStatus_cons]
    simp only [if_neg ha]
    exact ih s0 (fun c hc => h c (List.mem_cons_of_mem _ hc))

theorem lastStatus_sendFlat_mem (env : Env) (finalMessage : Str)
    (targets : List Candidate) (c : Candidate) (s0 : Status)
    (hnd : (targets.map Candidate.id).Nodup) (hc : c ∈ targets) :
    lastStatus (targets.flatMap fun c =>
        [(c.id, Status.sending), (c.id, sendResolved env finalMessage c)])
      c.id s0 = sendResolved env finalMessage c := by
  induction targets generalizing s0 with
  | nil => cases hc
  | cons a l ih =>
    simp only [List.map_cons, List.nodup_cons] at hnd
    rw [List.flatMap_cons, List.cons_append, List.cons_append,
      List.nil_append, lastStatus_cons, lastStatus_cons]
    rcases List.mem_cons.mp hc with h | h
    · subst h
      simp only [if_pos rfl]
      exact lastStatus_sendFlat_not_mem env finalMessage l c.id _
        (fun q hq he => hnd.1 (he ▸ List.mem_map_of_mem Candidate.id hq))
    · have ha : a.id ≠ c.id := by
        intro he
        exact hnd.1 (he ▸ List.mem_map_of_mem Candidate.id h)
      simp only [if_neg ha]
      exact ih s0 hnd.2 h

theorem map_one_shotEdges (st : Status) (cs : List Candidate) :
    ((cs.map (fun c => (c, Shot.one st))).flatMap fun p => shotEdges p.1 p.2) =
      cs.map (fun c => (c.status, st)) := by
  induction cs with
  | nil => rfl
  | cons a l ih =>
    simp only [List.map_cons, List.flatMap_cons, ih]
    rfl

theorem map_two_shotEdges (f : Candidate → Status) (cs : List Candidate) :
    ((cs.map (fun c => (c, Shot.two (f c)))).flatMap fun p => shotEdges p.1 p.2) =
      cs.flatMap (fun c =>
        [(c.status, Status.sending), (Status.sending, f c)]) := by
  induction cs with
  | nil => rfl
  | cons a l ih =>
    simp only [List.map_cons, List.flatMap_cons, ih]
    rfl

theorem trimChars_wrap (l : Str) :
    trimChars ('\n' :: (l ++ ['\n'])) = trimChars l := by
  unfold trimChars
  have hnl : jsWhitespace '\n' = true := by decide
  have h1 : ('\n' :: (l ++ ['\n'])).dropWhile jsWhitespace
      = (l ++ ['\n']).dropWhile jsWhitespace := by
    rw [List.dropWhile_cons]
    simp [hnl]
  rw [h1, List.dropWhile_append]
  by_cases h2 : (l.dropWhile jsWhitespace).isEmpty
  · rw [if_pos h2]
    have h3 : l.dropWhile jsWhitespace = [] := by
      simpa [List.isEmpty_iff] using h2
    rw [h3]
    rfl
  · rw [if_neg h2, List.rdropWhile_concat_pos]
    exact hnl

theorem jsSplit_headD (sep : Char) (l : Str) :
    (jsSplit sep l).headD [] = l.takeWhile (fun c => c ≠ sep) := by
  induction l with
  | nil => rfl
  | cons c rest ih =>
    by_cases h : c = sep
    · subst h
      simp [jsSplit, List.takeWhile_cons]
    · simp [jsSplit, h, List.takeWhile_cons]
      simpa using ih

theorem namePart_eq_specNameToken {name : Str} (h : name ≠ []) :
    namePart name = specNameToken name := by
  unfold namePart specNameToken
  rw [if_neg h, jsSplit_headD]

theorem getSubstitution_cons_ne (matched before after : Str) (c : Char)
    (rest : Str) (hc : c ≠ '$') :
    getSubstitution matched before after (c :: rest) =
      c :: getSubstitution matched before after rest := by
  conv_lhs => rw [getSubstitution.eq_def]
  split
  · rename_i heq
    cases heq
  · rename_i heq
    injection heq with h1 _
    exact absurd h1 hc
  · rename_i heq
    injection heq with h1 _
    exact absurd h1 hc
  · rename_i heq
    injection heq with h1 _
    exact absurd h1 hc
  · rename_i heq
    injection heq with h1 _
    exact absurd h1 hc
  · rename_i heq
    injection heq with h1 h2
    rw [h1, h2]

theorem getSubstitution_no_dollar {repl : Str} (h : '$' ∉ repl)
    (matched before after : Str) :
    getSubstitution matched before after repl = repl := by
  induction repl with
  | nil => rfl
  | cons c rest ih =>
    have hc : c ≠ '$' := by
      intro he
      exact h (he ▸ List.mem_cons_self c rest)
    have hrest : '$' ∉ rest := fun hm => h (List.mem_cons_of_mem _ hm)
    rw [getSubstitution_cons_ne matched before after c rest hc, ih hrest]

theorem replaceAllAux_literal (pat repl : Str) (h : '$' ∉ repl) :
    ∀ (fuel : Nat) (before l : Str),
      replaceAllAux pat repl fuel before l =
        specLiteralReplaceAux pat repl fuel l := by
  intro fuel
  induction fuel with
  | zero =>
    intro before l
    cases l <;> rfl
  | succ fuel ih =>
    intro before l
    cases l with
    | nil => rfl
    | cons c rest =>
      show (if pat.isPrefixOf (c :: rest) ∧ pat ≠ [] then
          getSubstitution pat before (rest.drop (pat.length - 1)) repl ++
            replaceAllAux pat repl fuel (before ++ pat)
              (rest.drop (pat.length - 1))
        else c :: replaceAllAux pat repl fuel (before ++ [c]) rest) = _
      by_cases hp : pat.isPrefixOf (c :: rest) ∧ pat ≠ []
      · rw [if_pos hp, getSubstitution_no_dollar h, ih]
        conv_rhs => rw [specLiteralReplaceAux]
        rw [if_pos hp]
      · rw [if_neg hp, ih]
        conv_rhs => rw [specLiteralReplaceAux]
        rw [if_neg hp]

theorem replaceAll_literal (pat repl l : Str) (h : '$' ∉ repl) :
    replaceAll pat repl l = specLiteralReplace pat repl l :=
  replaceAllAux_literal pat repl h l.length [] l

theorem zip_map_snd {β γ : Type} (F : β → γ) :
    ∀ (rows : List β) (idxs : List Nat), rows.length ≤ idxs.length →
      (idxs.zip rows).map (fun pr => F pr.2) = rows.map F := by
  intro rows
  induction rows with
  | nil =>
    intro idxs _
    simp
  | cons r rt ih =>
    intro idxs hlen
    cases idxs with
    | nil => simp at hlen
    | cons i it =>
      simp only [List.zip_cons_cons, List.map_cons]
      rw [ih it (by simpa using hlen)]

theorem map_phone_aux (m : Mapping) (ts : Nat) :
    ∀ (rows : List Row) (idxs : List Nat), rows.length ≤ idxs.length →
      (((idxs.zip rows).map (fun p =>
          { id := mkId ts p.1
            name := if rowGet p.2 m.nameColumn = [] then "Candidate".toList
                    else rowGet p.2 m.nameColumn
            phone := rowGet p.2 m.phoneColumn
            originalRow := p.2
            status := Status.pending : Candidate })
        |>.filter (fun c => c.phone.length > 5)).map Candidate.phone) =
      (rows.map (fun row => rowGet row m.phoneColumn)).filter
        (fun p => p.length > 5) := by
  intro rows
  induction rows with
  | nil =>
    intro idxs _
    simp
  | cons r rt ih =>
    intro idxs hlen
    cases idxs with
    | nil => simp at hlen
    | cons i it =>
      have ih2 := ih it (by simpa using hlen)
      simp only [List.zip_cons_cons, List.map_cons, List.filter_cons]
      by_cases h : (rowGet r m.phoneColumn).length > 5 <;>
        simp [h] at ih2 ⊢ <;> exact ih2

theorem map_phone_handleDataLoaded (ts : Nat) (m : Mapping)
    (rawData : List Row) :
    (handleDataLoaded ts m rawData).map Candidate.phone =
      (rawData.map (fun row => rowGet row m.phoneColumn)).filter
        (fun p => p.length > 5) := by
  unfold handleDataLoaded
  exact map_phone_aux m ts rawData (List.range rawData.length) (by simp)

/-- C5: outreach link construction strips all non-digit characters from the
candidate's phone (for "+1 (555) 012-3456" the digit string is
"15550123456"); when the digit string is empty the attempt is a construction
failure: `openWhatsApp` requests no browsing context and reports failure. -/
theorem C5_link_construction (env : Env) (finalMessage : Str) :
    formatPhone "+1 (555) 012-3456".toList = "15550123456".toList ∧
    (∀ phone : Str, formatPhone phone = phone.filter Char.isDigit) ∧
    (∀ c : Candidate, formatPhone c.phone = [] →
      openWhatsApp env finalMessage c = (none, false)) := by
  refine ⟨by decide, fun _ => rfl, ?_⟩
  intro c h
  simp [openWhatsApp, h]

/-- C5 witness: a symbol-only phone is a construction failure and never
opens a browsing context. -/
theorem C5_link_construction_witness :
    formatPhone (Candidate.mk "e" "X".toList "+-+ ()".toList [] Status.pending).phone
        = [] ∧
    openWhatsApp ⟨fun s => s, fun _ => true⟩ []
        (Candidate.mk "e" "X".toList "+-+ ()".toList [] Status.pending)
      = (none, false) :=
  ⟨by decide,
    (C5_link_construction ⟨fun s => s, fun _ => true⟩ []).2.2
      (Candidate.mk "e" "X".toList "+-+ ()".toList [] Status.pending) (by decide)⟩

/-- C7: whenever the column-mapping collaborator fails, the deterministic
fallback returns the first header containing "name" (case-insensitive), else
the first header; and the first header containing "phone"/"mobile"/"contact"
(case-insensitive), else the second header; for
["Full Name","Mobile No","Role"] it returns ("Full Name", "Mobile No"). -/
theorem C7_mapping_fallback :
    analyzeCsvHeadersFallback
        ["Full Name".toList, "Mobile No".toList, "Role".toList] =
      (some "Full Name".toList, some "Mobile No".toList) ∧
    (∀ headers : List Str,
      (headers.find? nameHeader = none →
        (analyzeCsvHeadersFallback headers).1 = headers.head?) ∧
      (∀ hd, headers.find? nameHeader = some hd →
        (analyzeCsvHeadersFallback headers).1 = some hd ∧
          nameHeader hd = true ∧ hd ∈ headers) ∧
      (headers.find? phoneHeader = none →
        (analyzeCsvHeadersFallback headers).2 = headers.get? 1) ∧
      (∀ hd, headers.find? phoneHeader = some hd →
        (analyzeCsvHeadersFallback headers).2 = some hd ∧
          phoneHeader hd = true ∧ hd ∈ headers)) := by
  refine ⟨by decide, ?_⟩
  intro headers
  refine ⟨?_, ?_, ?_, ?_⟩
  · intro h
    show ((headers.find? nameHeader).or headers.head?) = headers.head?
    rw [h]
    rfl
  · intro hd hfind
    refine ⟨?_, List.find?_some hfind, List.mem_of_find?_eq_some hfind⟩
    show ((headers.find? nameHeader).or headers.head?) = some hd
    rw [hfind]
    rfl
  · intro h
    show ((headers.find? phoneHeader).or (headers.get? 1)) = headers.get? 1
    rw [h]
    rfl
  · intro hd hfind
    refine ⟨?_, List.find?_some hfind, List.mem_of_find?_eq_some hfind⟩
    show ((headers.find? phoneHeader).or (headers.get? 1)) = some hd
    rw [hfind]
    rfl

/-- C7 witness: the fallback search at the example headers. -/
theorem C7_mapping_fallback_witness :
    (["Full Name".toList, "Mobile No".toList,
        "Role".toList].find? nameHeader = some "Full Name".toList) ∧
    ((analyzeCsvHeadersFallback
        ["Full Name".toList, "Mobile No".toList, "Role".toList]).1 =
          some "Full Name".toList ∧
      nameHeader "Full Name".toList = true ∧
      "Full Name".toList ∈
        ["Full Name".toList, "Mobile No".toList, "Role".toList]) :=
  ⟨by decide,
    (C7_mapping_fallback.2
        ["Full Name".toList, "Mobile No".toList, "Role".toList]).2.1
      "Full Name".toList (by decide)⟩

/-- C8 counterexample: the claim says a failed tone-rewrite leaves the
user's current text unchanged, but the editor strips every double-quote
character from the (unchanged) fallback result, so a text containing a
double quote is modified. -/
theorem C8_counterexample :
    handleRefine AiResult.err "Say \"hi\" now".toList = "Say hi now".toList ∧
    "Say hi now".toList ≠ "Say \"hi\" now".toList := by
  exact ⟨by decide, by decide⟩

/-- C8 amended: on collaborator failure `refineMessageTone` itself returns
the current text unchanged; the editor then stores the result with all
double-quote characters stripped, so the stored intro is unchanged exactly
when the text contains no double quote. -/
theorem C8_tone_fallback_amended :
    (∀ cur : Str, refineMessageTone AiResult.err cur = cur) ∧
    (∀ cur : Str, handleRefine AiResult.err cur =
      cur.filter (fun ch => ch ≠ '"')) ∧
    (∀ cur : Str, '"' ∉ cur → handleRefine AiResult.err cur = cur) := by
  refine ⟨fun _ => rfl, fun _ => rfl, ?_⟩
  intro cur h
  show cur.filter (fun ch => ch ≠ '"') = cur
  rw [List.filter_eq_self]
  intro a ha
  have : a ≠ '"' := by
    intro he
    exact h (he ▸ ha)
  simpa using this

/-- C8 witness: a quote-free text passes through a failed refine unchanged. -/
theorem C8_tone_fallback_amended_witness :
    ('"' ∉ "hello there".toList) ∧
    handleRefine AiResult.err "hello there".toList = "hello there".toList :=
  ⟨by decide, C8_tone_fallback_amended.2.2 "hello there".toList (by decide)⟩

/-- C10 counterexample: a bulk send sourced from "all pending" does not clear
the Selection Set — after the batch the previously selected id is still
selected. -/
theorem C10_counterexample :
    (confirmBulkSend ⟨fun s => s, fun _ => true⟩ []
        ⟨[Candidate.mk "p1" "Pat".toList "1234567".toList [] Status.pending],
          ["p1"], some BulkType.all⟩).1.selected = ["p1"] ∧
    (["p1"] : List String) ≠ [] := by
  exact ⟨by decide, by decide⟩

/-- C10 amended: bulk-skip and bulk-retry clear the Selection Set, a bulk
send sourced from the Selection Set clears it (at batch start), a bulk send
sourced from "all pending" leaves it unchanged, and a freshly mounted queue
component (after roster replacement) starts with an empty selection. -/
theorem C10_selection_clear_amended :
    (∀ roster selected, (handleBulkSkip roster selected).1.2 = []) ∧
    (∀ roster selected, (handleBulkRetry roster selected).1.2 = []) ∧
    (∀ (env : Env) (msg : Str) roster selected,
      (confirmBulkSend env msg
        ⟨roster, selected, some BulkType.selected⟩).1.selected = []) ∧
    (∀ (env : Env) (msg : Str) roster selected,
      (confirmBulkSend env msg
        ⟨roster, selected, some BulkType.all⟩).1.selected = selected) ∧
    (∀ roster, (initialQState roster).selected = []) :=
  ⟨fun _ _ => rfl, fun _ _ => rfl, fun _ _ _ _ => rfl, fun _ _ _ _ => rfl,
    fun _ => rfl⟩

/-- C3 counterexample: the roster filter uses the raw mapped phone string's
length, not the normalized digit count — a row whose phone "(12) 3" has six
raw characters but only three digits is kept, although the claim says every
row with fewer than six post-normalization characters is excluded. -/
theorem C3_counterexample :
    (handleDataLoaded 7 ⟨"Name".toList, "Phone".toList⟩
        [[("Name".toList, "Ann Lee".toList),
          ("Phone".toList, "+155501234".toList)],
         [("Name".toList, "Cal".toList),
          ("Phone".toList, "(12) 3".toList)]]).length = 2 ∧
    ((handleDataLoaded 7 ⟨"Name".toList, "Phone".toList⟩
        [[("Name".toList, "Ann Lee".toList),
          ("Phone".toList, "+155501234".toList)],
         [("Name".toList, "Cal".toList),
          ("Phone".toList, "(12) 3".toList)]]).map Candidate.phone
      = ["+155501234".toList, "(12) 3".toList]) ∧
    (formatPhone "(12) 3".toList).length < 6 := by
  exact ⟨by decide, by decide, by decide⟩

/-- C3 amended: a row is excluded from the roster at construction exactly
when its raw mapped phone string has at most five characters (no
normalization is applied by the filter); every roster candidate has a raw
phone longer than five characters, the surviving phones are precisely the
raw mapped phones longer than five characters in row order, and the
{Bob, "12"} example still yields a roster of length one. -/
theorem C3_roster_filter_amended (ts : Nat) (m : Mapping)
    (rawData : List Row) :
    (∀ c ∈ handleDataLoaded ts m rawData, c.phone.length > 5) ∧
    ((handleDataLoaded ts m rawData).map Candidate.phone =
      (rawData.map (fun row => rowGet row m.phoneColumn)).filter
        (fun p => p.length > 5)) ∧
    (handleDataLoaded 7 ⟨"Name".toList, "Phone".toList⟩
        [[("Name".toList, "Ann Lee".toList),
          ("Phone".toList, "+155501234".toList)],
         [("Name".toList, "Bob".toList),
          ("Phone".toList, "12".toList)]]).length = 1 := by
  refine ⟨?_, map_phone_handleDataLoaded ts m rawData, by decide⟩
  intro c hc
  unfold handleDataLoaded at hc
  have := List.of_mem_filter hc
  simpa using this

/-- C3 witness: the valid row's candidate has a raw phone longer than five
characters. -/
theorem C3_roster_filter_amended_witness :
    (Candidate.mk (mkId 7 0) "Ann Lee".toList "+155501234".toList
        [("Name".toList, "Ann Lee".toList),
         ("Phone".toList, "+155501234".toList)] Status.pending ∈
      handleDataLoaded 7 ⟨"Name".toList, "Phone".toList⟩
        [[("Name".toList, "Ann Lee".toList),
          ("Phone".toList, "+155501234".toList)],
         [("Name".toList, "Bob".toList), ("Phone".toList, "12".toList)]]) ∧
    (Candidate.mk (mkId 7 0) "Ann Lee".toList "+155501234".toList
        [("Name".toList, "Ann Lee".toList),
         ("Phone".toList, "+155501234".toList)]
        Status.pending).phone.length > 5 :=
  ⟨by decide,
    (C3_roster_filter_amended 7 ⟨"Name".toList, "Phone".toList⟩
        [[("Name".toList, "Ann Lee".toList),
          ("Phone".toList, "+155501234".toList)],
         [("Name".toList, "Bob".toList), ("Phone".toList, "12".toList)]]).1
      _ (by decide)⟩

/-- C4 counterexample: a roster restored from the persistence layer can
contain a candidate in status `sending` — `getAllCandidates` maps a stored
`'sending'` through unchanged, so the startup load yields it, although the
claim says a freshly loaded roster never contains `sending`. -/
theorem C4_counterexample :
    (loadCandidatesApp
        (Except.ok [DbRow.mk "d1" "Dee".toList "9876543".toList
          (some Status.sending) none]) ⟨false⟩).2.2 =
      [Candidate.mk "d1" "Dee".toList "9876543".toList [] Status.sending] ∧
    Status.sending ∈
      ((loadCandidatesApp
          (Except.ok [DbRow.mk "d1" "Dee".toList "9876543".toList
            (some Status.sending) none]) ⟨false⟩).2.2.map
        Candidate.status) := by
  exact ⟨by decide, by decide⟩

/-- C4 amended: every candidate in a freshly constructed roster is
`pending`; a roster restored from the persistence layer maps a null or
absent stored status to `pending` but otherwise preserves the stored
status, so an interrupted attempt persisted as `sending` is loaded back as
`sending`. -/
theorem C4_fresh_roster_amended :
    (∀ (ts : Nat) (m : Mapping) (rawData : List Row),
      ∀ c ∈ handleDataLoaded ts m rawData, c.status = Status.pending) ∧
    (∀ (rows : List DbRow) (s : DbState),
      ((getAllCandidates (Except.ok rows) s).2.1.map Candidate.status) =
        rows.map (fun row => row.status.getD Status.pending)) := by
  constructor
  · intro ts m rawData c hc
    unfold handleDataLoaded at hc
    rcases List.mem_map.mp (List.mem_of_mem_filter hc) with ⟨pr, _, h⟩
    rw [← h]
  · intro rows s
    show (rows.map mapDbRow).map Candidate.status = _
    rw [List.map_map]
    rfl

/-- C4 witness: the single constructed candidate of a one-valid-row upload
is `pending`. -/
theorem C4_fresh_roster_amended_witness :
    (Candidate.mk (mkId 7 0) "Ann Lee".toList "+155501234".toList
        [("Name".toList, "Ann Lee".toList),
         ("Phone".toList, "+155501234".toList)] Status.pending ∈
      handleDataLoaded 7 ⟨"Name".toList, "Phone".toList⟩
        [[("Name".toList, "Ann Lee".toList),
          ("Phone".toList, "+155501234".toList)]]) ∧
    (Candidate.mk (mkId 7 0) "Ann Lee".toList "+155501234".toList
        [("Name".toList, "Ann Lee".toList),
         ("Phone".toList, "+155501234".toList)]
        Status.pending).status = Status.pending :=
  ⟨by decide,
    C4_fresh_roster_amended.1 7 ⟨"Name".toList, "Phone".toList⟩
      [[("Name".toList, "Ann Lee".toList),
        ("Phone".toList, "+155501234".toList)]] _ (by decide)⟩

/-- C6 counterexample: two failures of the claimed replacement rule.  For
the empty candidate name the rule substitutes the whole (empty) name, but
the code substitutes the placeholder "Candidate".  For the name "$& Doe"
the rule substitutes the first name-token "$&" literally, but the code's
replacement string goes through the JS GetSubstitution escapes, so "$&"
expands to the matched token text itself. -/
theorem C6_counterexample :
    personalizedMessage nameToken [] = "Candidate".toList ∧
    specLiteralReplace nameToken (specNameToken []) nameToken = [] ∧
    ("Candidate".toList : Str) ≠ ([] : Str) ∧
    personalizedMessage nameToken "$& Doe".toList = nameToken ∧
    specLiteralReplace nameToken (specNameToken "$& Doe".toList) nameToken
      = "$&".toList ∧
    nameToken ≠ "$&".toList := by
  exact ⟨by decide, by decide, by decide, by decide, by decide, by decide⟩

/-- C6 amended: the composed message is the intro, the questions joined by
newline, and the outro, each on its own block, trimmed of leading and
trailing whitespace; at send time every {{name}} token is
replaced by the JS GetSubstitution expansion of the name's first
space-separated token — which is that token inserted literally (the whole
name when it contains no space) whenever the name is nonempty and its
first token contains no dollar sign — while an empty name is replaced by
the placeholder "Candidate" (itself dollar-free, hence literal); the
Jane Doe example produces "Hi Jane", "Q1?", "Bye". -/
theorem C6_template_amended :
    (∀ t : MessageTemplate, fullMessage t =
      trimChars (t.intro ++ "\n\n".toList ++
        List.intercalate "\n".toList t.questions ++ "\n\n".toList ++
        t.outro)) ∧
    (∀ msg name : Str, name ≠ [] →
      personalizedMessage msg name =
        replaceAll nameToken (specNameToken name) msg) ∧
    (∀ msg name : Str, name ≠ [] → '$' ∉ specNameToken name →
      personalizedMessage msg name =
        specLiteralReplace nameToken (specNameToken name) msg) ∧
    (∀ msg : Str, personalizedMessage msg [] =
      specLiteralReplace nameToken "Candidate".toList msg) ∧
    personalizedMessage
        (fullMessage ⟨"Hi \x7b\x7bname\x7d\x7d".toList, ["Q1?".toList],
          "Bye".toList⟩) "Jane Doe".toList
      = "Hi Jane\n\nQ1?\n\nBye".toList := by
  refine ⟨?_, ?_, ?_, ?_, by decide⟩
  · intro t
    unfold fullMessage
    have hassoc : "\n".toList ++ t.intro ++ "\n\n".toList ++
        List.intercalate "\n".toList t.questions ++ "\n\n".toList ++
        t.outro ++ "\n".toList =
      '\n' :: ((t.intro ++ "\n\n".toList ++
        List.intercalate "\n".toList t.questions ++ "\n\n".toList ++
        t.outro) ++ ['\n']) := by
      simp [List.append_assoc]
    rw [hassoc, trimChars_wrap]
  · intro msg name h
    unfold personalizedMessage
    rw [namePart_eq_specNameToken h]
  · intro msg name h hd
    unfold personalizedMessage
    rw [namePart_eq_specNameToken h, replaceAll_literal _ _ _ hd]
  · intro msg
    unfold personalizedMessage
    rw [show namePart [] = "Candidate".toList from by decide,
      replaceAll_literal _ _ _ (by decide)]

/-- C6 witness: the nonempty dollar-free name rule applied to "Jane Doe". -/
theorem C6_template_amended_witness :
    ("Jane Doe".toList ≠ ([] : Str)) ∧
    ('$' ∉ specNameToken "Jane Doe".toList) ∧
    personalizedMessage "Hi \x7b\x7bname\x7d\x7d".toList
        "Jane Doe".toList =
      specLiteralReplace nameToken (specNameToken "Jane Doe".toList)
        "Hi \x7b\x7bname\x7d\x7d".toList :=
  ⟨by decide, by decide,
    C6_template_amended.2.2.1 "Hi \x7b\x7bname\x7d\x7d".toList
      "Jane Doe".toList (by decide) (by decide)⟩

/-- C9 counterexample: in offline mode `getAllCandidates` does not consult
the offline flag — when the backing store meanwhile answers with a row, it
returns that row with no offline indicator rather than an empty set, while
the adapter stays offline. -/
theorem C9_counterexample :
    (getAllCandidates
        (Except.ok [DbRow.mk "d1" "Dee".toList "9876543".toList
          (some Status.sent) none]) ⟨true⟩) =
      (⟨true⟩, ([Candidate.mk "d1" "Dee".toList "9876543".toList []
        Status.sent], none)) ∧
    (getAllCandidates
        (Except.ok [DbRow.mk "d1" "Dee".toList "9876543".toList
          (some Status.sent) none]) ⟨true⟩).2.1 ≠ [] := by
  exact ⟨by decide, by decide⟩

/-- C9 amended: after a schema-absent error the adapter is offline; while
offline every write operation is a no-op that performs no remote write and
never clears the flag; a schema-absent response (re-)enters offline mode;
offline ends only via `retryConnection`, which reports success exactly when
the resulting state is online; `getAllCandidates`, however, never consults
the flag — it reflects the backend response, returning an empty list with
the `missing_table` indicator whenever the schema is still absent. -/
theorem C9_offline_mode_amended :
    (∀ (resp : Option DbErr) (cs : List Candidate) (s : DbState),
      s.offline = true → addCandidates resp cs s = (s, false)) ∧
    (∀ (resp : Option DbErr) (s : DbState),
      s.offline = true → dbUpdateStatus resp s = (s, false)) ∧
    (∀ (resp : Option DbErr) (s : DbState),
      s.offline = true → clearCandidates resp s = (s, false)) ∧
    (∀ (resp : Except DbErr (List DbRow)) (s : DbState),
      s.offline = true → (getAllCandidates resp s).1.offline = true) ∧
    (∀ s : DbState,
      getAllCandidates (Except.error DbErr.missingTable) s =
        (⟨true⟩, ([], some LoadErr.missingTable))) ∧
    (∀ (cs : List Candidate) (s : DbState), s.offline = false → cs ≠ [] →
      addCandidates (some DbErr.missingTable) cs s = (⟨true⟩, true)) ∧
    (∀ (resp : Except DbErr (List DbRow)) (s : DbState),
      (retryConnection resp s).2 = true ↔
        (retryConnection resp s).1.offline = false) := by
  refine ⟨?_, ?_, ?_, ?_, fun _ => rfl, ?_, ?_⟩
  · intro resp cs s h
    simp [addCandidates, h]
  · intro resp s h
    simp [dbUpdateStatus, h]
  · intro resp s h
    simp [clearCandidates, h]
  · intro resp s h
    match resp with
    | .error DbErr.missingTable => rfl
    | .error (DbErr.other m) => exact h
    | .ok rows => exact h
  · intro cs s h hcs
    simp [addCandidates, h, hcs]
  · intro resp s
    match resp with
    | .error DbErr.missingTable => simp [retryConnection, getAllCandidates]
    | .error (DbErr.other m) => simp [retryConnection, getAllCandidates]
    | .ok rows => simp [retryConnection, getAllCandidates]

/-- C9 witness: a write in offline mode is a no-op. -/
theorem C9_offline_mode_amended_witness :
    ((⟨true⟩ : DbState).offline = true) ∧
    addCandidates none
        [Candidate.mk "p1" "Pat".toList "1234567".toList [] Status.pending]
        ⟨true⟩ =
      (⟨true⟩, false) :=
  ⟨rfl,
    C9_offline_mode_amended.1 none
      [Candidate.mk "p1" "Pat".toList "1234567".toList [] Status.pending]
      ⟨true⟩ rfl⟩

/-- C1: confirming the bulk "send to all pending" action emits exactly one
`sending`/resolution pair for every pending candidate, in original roster
order, with no early abort (the trace is the full flatMap whatever each
attempt's outcome); the roster keeps its ids in order, every pending
candidate ends in `sent` or `failed`, and every other candidate is
unchanged. -/
theorem C1_bulk_send_all (env : Env) (finalMessage : Str)
    (roster : List Candidate) (selected : List String)
    (hids : (roster.map Candidate.id).Nodup) :
    ((confirmBulkSend env finalMessage
        ⟨roster, selected, some BulkType.all⟩).2 =
      (roster.filter fun c => c.status = Status.pending).flatMap
        (fun c => [(c.id, Status.sending),
          (c.id, sendResolved env finalMessage c)])) ∧
    ((confirmBulkSend env finalMessage
        ⟨roster, selected, some BulkType.all⟩).1.roster.map Candidate.id =
      roster.map Candidate.id) ∧
    (∀ c ∈ roster, c.status = Status.pending →
      ((confirmBulkSend env finalMessage
          ⟨roster, selected, some BulkType.all⟩).1.roster.find?
        (fun x => x.id == c.id) =
          some { c with status := sendResolved env finalMessage c }) ∧
      (sendResolved env finalMessage c = Status.sent ∨
        sendResolved env finalMessage c = Status.failed)) ∧
    (∀ c ∈ roster, c.status ≠ Status.pending →
      (confirmBulkSend env finalMessage
          ⟨roster, selected, some BulkType.all⟩).1.roster.find?
        (fun x => x.id == c.id) = some c) := by
  have hro : (confirmBulkSend env finalMessage
      ⟨roster, selected, some BulkType.all⟩).1.roster =
    applyTrace roster
      ((roster.filter fun c => c.status = Status.pending).flatMap
        (fun c => [(c.id, Status.sending),
          (c.id, sendResolved env finalMessage c)])) := rfl
  refine ⟨rfl, ?_, ?_, ?_⟩
  · rw [hro, id_map_applyTrace]
  · intro c hc hp
    constructor
    · rw [hro, find?_applyTrace, find?_nodup_mem hids hc, Option.map_some']
      have hmemT : c ∈ roster.filter (fun c => c.status = Status.pending) :=
        List.mem_filter.mpr ⟨hc, by simp [hp]⟩
      rw [lastStatus_sendFlat_mem env finalMessage _ c _
        (filter_ids_nodup roster _ hids) hmemT]
    · unfold sendResolved
      by_cases hw : (openWhatsApp env finalMessage c).2 <;> simp [hw]
  · intro c hc hp
    rw [hro, find?_applyTrace, find?_nodup_mem hids hc, Option.map_some']
    have hne : ∀ q ∈ roster.filter (fun c => c.status = Status.pending),
        q.id ≠ c.id := by
      intro q hq he
      have hqr : q ∈ roster := List.mem_of_mem_filter hq
      have hqp : q.status = Status.pending := by
        have := List.of_mem_filter hq
        simpa using this
      exact hp ((nodup_id_inj hids hqr hc he) ▸ hqp)
    rw [lastStatus_sendFlat_not_mem env finalMessage _ c.id _ hne]

/-- C1 witness: the bulk send over a two-candidate roster (one pending, one
sent) at a concrete environment. -/
theorem C1_bulk_send_all_witness :
    (([Candidate.mk "a" "A".toList "123456".toList [] Status.pending,
       Candidate.mk "b" "B".toList "234567".toList [] Status.sent].map
        Candidate.id).Nodup) ∧
    (((confirmBulkSend ⟨fun s => s, fun _ => true⟩ []
        ⟨[Candidate.mk "a" "A".toList "123456".toList [] Status.pending,
          Candidate.mk "b" "B".toList "234567".toList [] Status.sent],
          [], some BulkType.all⟩).2 =
      ([Candidate.mk "a" "A".toList "123456".toList [] Status.pending,
        Candidate.mk "b" "B".toList "234567".toList [] Status.sent].filter
          fun c => c.status = Status.pending).flatMap
        (fun c => [(c.id, Status.sending),
          (c.id, sendResolved ⟨fun s => s, fun _ => true⟩ [] c)])) ∧
    (((confirmBulkSend ⟨fun s => s, fun _ => true⟩ []
        ⟨[Candidate.mk "a" "A".toList "123456".toList [] Status.pending,
          Candidate.mk "b" "B".toList "234567".toList [] Status.sent],
          [], some BulkType.all⟩).1.roster.map Candidate.id =
      [Candidate.mk "a" "A".toList "123456".toList [] Status.pending,
       Candidate.mk "b" "B".toList "234567".toList [] Status.sent].map
        Candidate.id) ∧
    (∀ c ∈ [Candidate.mk "a" "A".toList "123456".toList [] Status.pending,
        Candidate.mk "b" "B".toList "234567".toList [] Status.sent],
      c.status = Status.pending →
      ((confirmBulkSend ⟨fun s => s, fun _ => true⟩ []
          ⟨[Candidate.mk "a" "A".toList "123456".toList [] Status.pending,
            Candidate.mk "b" "B".toList "234567".toList [] Status.sent],
            [], some BulkType.all⟩).1.roster.find?
        (fun x => x.id == c.id) =
          some { c with
            status := sendResolved ⟨fun s => s, fun _ => true⟩ [] c }) ∧
      (sendResolved ⟨fun s => s, fun _ => true⟩ [] c = Status.sent ∨
        sendResolved ⟨fun s => s, fun _ => true⟩ [] c = Status.failed)) ∧
    (∀ c ∈ [Candidate.mk "a" "A".toList "123456".toList [] Status.pending,
        Candidate.mk "b" "B".toList "234567".toList [] Status.sent],
      c.status ≠ Status.pending →
      (confirmBulkSend ⟨fun s => s, fun _ => true⟩ []
          ⟨[Candidate.mk "a" "A".toList "123456".toList [] Status.pending,
            Candidate.mk "b" "B".toList "234567".toList [] Status.sent],
            [], some BulkType.all⟩).1.roster.find?
        (fun x => x.id == c.id) = some c))) :=
  ⟨by decide,
    C1_bulk_send_all ⟨fun s => s, fun _ => true⟩ []
      [Candidate.mk "a" "A".toList "123456".toList [] Status.pending,
       Candidate.mk "b" "B".toList "234567".toList [] Status.sent]
      [] (by decide)⟩

theorem codeEdge_to_sending (a : Status) : codeEdge a Status.sending = true := by
  cases a <;> decide

theorem codeEdge_to_pending (a : Status) : codeEdge a Status.pending = true := by
  cases a <;> decide

theorem codeEdge_resolved (env : Env) (msg : Str) (c : Candidate) :
    codeEdge Status.sending (sendResolved env msg c) = true := by
  unfold sendResolved
  by_cases h : (openWhatsApp env msg c).2
  · rw [if_pos h]
    decide
  · rw [if_neg h]
    decide

theorem codeEdge_of_sendEdges (env : Env) (msg : Str) (cs : List Candidate) :
    ∀ e ∈ cs.flatMap (fun c => [(c.status, Status.sending),
        (Status.sending, sendResolved env msg c)]), codeEdge e.1 e.2 = true := by
  intro e he
  rcases List.mem_flatMap.mp he with ⟨c, _, hm⟩
  rcases List.mem_cons.mp hm with h | h
  · subst h
    exact codeEdge_to_sending _
  · have he2 : e = (Status.sending, sendResolved env msg c) := by simpa using h
    subst he2
    exact codeEdge_resolved env msg c

theorem replayEdges_sendFlat (env : Env) (msg : Str) (roster : List Candidate)
    (p : Candidate → Bool) (hids : (roster.map Candidate.id).Nodup) :
    replayEdges roster ((roster.filter p).flatMap (fun c =>
        [(c.id, Status.sending), (c.id, sendResolved env msg c)])) =
      (roster.filter p).flatMap (fun c =>
        [(c.status, Status.sending),
          (Status.sending, sendResolved env msg c)]) := by
  have h1 : ((roster.filter p).flatMap (fun c =>
      [(c.id, Status.sending), (c.id, sendResolved env msg c)])) =
    (((roster.filter p).map
        (fun c => (c, Shot.two (sendResolved env msg c)))).flatMap
      (fun q => shotTrace q.1 q.2)) := (map_two_shotTrace _ _).symm
  have hmem : ∀ q ∈ (roster.filter p).map
      (fun c => (c, Shot.two (sendResolved env msg c))), q.1 ∈ roster := by
    intro q hq
    rcases List.mem_map.mp hq with ⟨c, hcf, hq2⟩
    rw [← hq2]
    exact List.mem_of_mem_filter hcf
  have hnd : (((roster.filter p).map
      (fun c => (c, Shot.two (sendResolved env msg c)))).map
        (fun q => q.1.id)).Nodup := by
    rw [List.map_map]
    exact filter_ids_nodup roster p hids
  rw [h1, replayEdges_shots _ roster hids hmem hnd]
  exact map_two_shotEdges _ _

theorem replayEdges_oneFlat (roster : List Candidate) (p : Candidate → Bool)
    (st : Status) (hids : (roster.map Candidate.id).Nodup) :
    replayEdges roster ((roster.filter p).map (fun c => (c.id, st))) =
      (roster.filter p).map (fun c => (c.status, st)) := by
  have h1 : (roster.filter p).map (fun c => (c.id, st)) =
    ((roster.filter p).map (fun c => (c, Shot.one st))).flatMap
      (fun q => shotTrace q.1 q.2) := (map_one_shotTrace _ _).symm
  have hmem : ∀ q ∈ (roster.filter p).map (fun c => (c, Shot.one st)),
      q.1 ∈ roster := by
    intro q hq
    rcases List.mem_map.mp hq with ⟨c, hcf, hq2⟩
    rw [← hq2]
    exact List.mem_of_mem_filter hcf
  have hnd : (((roster.filter p).map (fun c => (c, Shot.one st))).map
      (fun q => q.1.id)).Nodup := by
    rw [List.map_map]
    exact filter_ids_nodup roster p hids
  rw [h1, replayEdges_shots _ roster hids hmem hnd]
  exact map_one_shotEdges _ _

theorem replayEdges_singleSend (env : Env) (msg : Str)
    (roster : List Candidate) (c : Candidate)
    (hids : (roster.map Candidate.id).Nodup) (hc : c ∈ roster) :
    replayEdges roster (executeSend env msg roster c).2 =
      [(c.status, Status.sending),
        (Status.sending, sendResolved env msg c)] := by
  have h1 : (executeSend env msg roster c).2 =
      ([(c, Shot.two (sendResolved env msg c))]).flatMap
        (fun q => shotTrace q.1 q.2) := rfl
  have hmem : ∀ q ∈ [(c, Shot.two (sendResolved env msg c))],
      q.1 ∈ roster := by
    intro q hq
    have : q = (c, Shot.two (sendResolved env msg c)) := by simpa using hq
    rw [this]
    exact hc
  rw [h1, replayEdges_shots _ roster hids hmem (by simp)]
  rfl

/-- C2 counterexample: a confirmed single retry on a `sent` candidate
re-fires a send, so the candidate moves `sent → sending` directly — an edge
absent from the §4.1 table (which only allows `sent → pending` for retry and
forbids entering `sending` from `sent`). -/
theorem C2_counterexample :
    replayEdges
        [Candidate.mk "s1" "Sam".toList "7654321".toList [] Status.sent]
        (confirmSingleSend ⟨fun s => s, fun _ => true⟩ []
          [Candidate.mk "s1" "Sam".toList "7654321".toList [] Status.sent]
          (handleRetry
            (Candidate.mk "s1" "Sam".toList "7654321".toList []
              Status.sent))).2 =
      [(Status.sent, Status.sending), (Status.sending, Status.sent)] ∧
    specEdge Status.sent Status.sending = false := by
  exact ⟨by decide, by decide⟩

/-- C2 amended: every edge of the §4.1 table is still produced only as the
code produces it, but the send-attempt rule is wider than claimed: skip
(single, gated to `pending`, and bulk) moves only `pending` to `skipped`;
bulk-retry moves any status to `pending`; any send attempt — single send,
single retry (which re-fires a send instead of requeueing), or either bulk
send — moves its target from whatever status it has into `sending`, which
then resolves to `sent` or `failed`; in particular `sent` and `failed` are
still only ever entered from `sending`. -/
theorem C2_transitions_amended (env : Env) (finalMessage : Str) :
    (∀ a b, specEdge a b = true → codeEdge a b = true) ∧
    (∀ (roster : List Candidate) (c : Candidate),
      (roster.map Candidate.id).Nodup → c ∈ roster →
      c.status = Status.pending →
      ∀ e ∈ replayEdges roster (singleSkip roster c).2,
        codeEdge e.1 e.2 = true) ∧
    (∀ (roster : List Candidate) (c : Candidate),
      (roster.map Candidate.id).Nodup → c ∈ roster →
      ∀ e ∈ replayEdges roster
        (confirmSingleSend env finalMessage roster
          (handleSingleSendClick c)).2, codeEdge e.1 e.2 = true) ∧
    (∀ (roster : List Candidate) (c : Candidate),
      (roster.map Candidate.id).Nodup → c ∈ roster →
      ∀ e ∈ replayEdges roster
        (confirmSingleSend env finalMessage roster (handleRetry c)).2,
        codeEdge e.1 e.2 = true) ∧
    (∀ (roster : List Candidate) (selected : List String),
      (roster.map Candidate.id).Nodup →
      ∀ e ∈ replayEdges roster (handleBulkSkip roster selected).2,
        codeEdge e.1 e.2 = true) ∧
    (∀ (roster : List Candidate) (selected : List String),
      (roster.map Candidate.id).Nodup →
      ∀ e ∈ replayEdges roster (handleBulkRetry roster selected).2,
        codeEdge e.1 e.2 = true) ∧
    (∀ s : QState, (s.roster.map Candidate.id).Nodup →
      ∀ e ∈ replayEdges s.roster (confirmBulkSend env finalMessage s).2,
        codeEdge e.1 e.2 = true) := by
  refine ⟨?_, ?_, ?_, ?_, ?_, ?_, ?_⟩
  · intro a b
    cases a <;> cases b <;> decide
  · intro roster c hids hc hp e he
    have h1 : (singleSkip roster c).2 = [(c.id, Status.skipped)] := rfl
    rw [h1, replayEdges_cons, find?_nodup_mem hids hc] at he
    have he2 : e = (c.status, Status.skipped) := by
      simpa [replayEdges] using he
    rw [he2, hp]
    decide
  · intro roster c hids hc e he
    rw [show (confirmSingleSend env finalMessage roster
        (handleSingleSendClick c)).2 = (executeSend env finalMessage roster c).2
      from rfl, replayEdges_singleSend env finalMessage roster c hids hc] at he
    rcases List.mem_cons.mp he with h | h
    · rw [h]
      exact codeEdge_to_sending _
    · have he2 : e = (Status.sending, sendResolved env finalMessage c) := by
        simpa using h
      rw [he2]
      exact codeEdge_resolved env finalMessage c
  · intro roster c hids hc e he
    rw [show (confirmSingleSend env finalMessage roster (handleRetry c)).2 =
        (executeSend env finalMessage roster c).2 from rfl,
      replayEdges_singleSend env finalMessage roster c hids hc] at he
    rcases List.mem_cons.mp he with h | h
    · rw [h]
      exact codeEdge_to_sending _
    · have he2 : e = (Status.sending, sendResolved env finalMessage c) := by
        simpa using h
      rw [he2]
      exact codeEdge_resolved env finalMessage c
  · intro roster selected hids e he
    rw [handleBulkSkip_trace, replayEdges_oneFlat roster _ _ hids] at he
    rcases List.mem_map.mp he with ⟨c, hcf, he2⟩
    have hcp : c.status = Status.pending := by
      have := List.of_mem_filter hcf
      simp at this
      exact this.2
    rw [← he2, hcp]
    decide
  · intro roster selected hids e he
    rw [handleBulkRetry_trace, replayEdges_oneFlat roster _ _ hids] at he
    rcases List.mem_map.mp he with ⟨c, _, he2⟩
    rw [← he2]
    exact codeEdge_to_pending _
  · intro s hids e he
    obtain ⟨roster, selected, bt⟩ := s
    match bt with
    | none =>
      simp only at he
      cases he
    | some BulkType.all =>
      rw [show (confirmBulkSend env finalMessage
          ⟨roster, selected, some BulkType.all⟩).2 =
        ((roster.filter fun c => c.status = Status.pending).flatMap
          (fun c => [(c.id, Status.sending),
            (c.id, sendResolved env finalMessage c)])) from rfl,
        replayEdges_sendFlat env finalMessage roster _ hids] at he
      exact codeEdge_of_sendEdges env finalMessage _ e he
    | some BulkType.selected =>
      rw [show (confirmBulkSend env finalMessage
          ⟨roster, selected, some BulkType.selected⟩).2 =
        ((roster.filter fun c => selected.contains c.id).flatMap
          (fun c => [(c.id, Status.sending),
            (c.id, sendResolved env finalMessage c)])) from rfl,
        replayEdges_sendFlat env finalMessage roster _ hids] at he
      exact codeEdge_of_sendEdges env finalMessage _ e he

/-- C2 witness: bulk-retry on a selected `sent` candidate only produces
edges of the code's transition relation. -/
theorem C2_transitions_amended_witness :
    (([Candidate.mk "s1" "Sam".toList "7654321".toList []
        Status.sent].map Candidate.id).Nodup) ∧
    (∀ e ∈ replayEdges
        [Candidate.mk "s1" "Sam".toList "7654321".toList [] Status.sent]
        (handleBulkRetry
          [Candidate.mk "s1" "Sam".toList "7654321".toList [] Status.sent]
          ["s1"]).2,
      codeEdge e.1 e.2 = true) :=
  ⟨by decide,
    (C2_transitions_amended ⟨fun s => s, fun _ => true⟩ []).2.2.2.2.2.1
      [Candidate.mk "s1" "Sam".toList "7654321".toList [] Status.sent]
      ["s1"] (by decide)⟩
